import Mathlib

/-!
Shallow embedding of the pyreactor equilibrium engine.

The embedding covers:
* `Component` — src/pyreactor/component.py (Shomate heat-capacity integrals);
* `Reaction` — src/pyreactor/reaction.py (Gibbs energy, equilibrium constant,
  reaction quotient, bracketed conversion solver);
* `Legacy` — the near-duplicate top-level copy src/reaction.py, embedded where
  it differs from the core copy (the ε margin on the search bracket).

Python floats are modelled as real numbers.  Stoichiometric orders are natural
numbers (`order (int)` per the source docstring, strictly positive per the
spec invariant).  Exceptions raised by float arithmetic (ZeroDivisionError,
IndexError) are modelled by an explicit raise-predicate, and the external
bracketed root finder (scipy.optimize.root_scalar with method brentq) is a
parameter returning `Option ℝ` (`some root` when converged, `none` otherwise).
-/

namespace PyReactor

open scoped Classical

noncomputable section

/-- Embeds `Component` (src/pyreactor/component.py).  The Python object stores
`name`, `order` and a five-element coefficient list that is unpacked as
`A, B, C, D, E`; the five coefficients are stored as five real fields. -/
structure Component where
  name : String
  order : ℕ
  cpA : ℝ
  cpB : ℝ
  cpC : ℝ
  cpD : ℝ
  cpE : ℝ

/-- Embeds `Component.enthalpy_change` (src/pyreactor/component.py lines 18-37). -/
def Component.enthalpy_change (c : Component) (initial_temp final_temp : ℝ) : ℝ :=
  let t_1 := initial_temp / 1000
  let t_2 := final_temp / 1000
  let term_1 := c.cpA * t_1 + c.cpB * t_1 ^ 2 / 2 + c.cpC * t_1 ^ 3 / 3
    + c.cpD * t_1 ^ 4 / 4 - c.cpE / t_1
  let term_2 := c.cpA * t_2 + c.cpB * t_2 ^ 2 / 2 + c.cpC * t_2 ^ 3 / 3
    + c.cpD * t_2 ^ 4 / 4 - c.cpE / t_2
  term_2 - term_1

/-- Embeds `Component.entropy_change` (src/pyreactor/component.py lines 40-59). -/
def Component.entropy_change (c : Component) (initial_temp final_temp : ℝ) : ℝ :=
  let t_1 := initial_temp / 1000
  let t_2 := final_temp / 1000
  let term_1 := c.cpA * Real.log t_1 + c.cpB * t_1 + c.cpC * t_1 ^ 2 / 2
    + c.cpD * t_1 ^ 3 / 3 - c.cpE / (2 * t_1 ^ 2)
  let term_2 := c.cpA * Real.log t_2 + c.cpB * t_2 + c.cpC * t_2 ^ 2 / 2
    + c.cpD * t_2 ^ 3 / 3 - c.cpE / (2 * t_2 ^ 2)
  term_2 - term_1

/-- Modelled from the spec: the repository imports `R` from a `constants`
module that is absent from src/; the spec names it the universal gas constant
in units consistent with ΔG (J/(mol·K)). -/
def R : ℝ := 8.314

/-- Modelled from the spec: the repository imports `STD_TEMP` from a
`constants` module that is absent from src/; the spec fixes the default
reference temperature at 298.15 K. -/
def STD_TEMP : ℝ := 298.15

/-- Embeds `Reaction.__init__` (src/pyreactor/reaction.py lines 33-39). -/
structure Reaction where
  reactants : List Component
  products : List Component
  rxn_std_dh : ℝ
  rxn_std_ds : ℝ
  eos : String
  reac_temp : ℝ

/-- Embeds `Reaction.calculate_rxn_gibbs` (src/pyreactor/reaction.py lines
42-60).  The Python keyword argument `std_temp` (defaulting to `STD_TEMP`) is
an explicit parameter here; each accumulation loop is a `List.foldl`. -/
def Reaction.calculate_rxn_gibbs (r : Reaction) (std_temp : ℝ) : ℝ :=
  let e_reac := r.reactants.foldl
    (fun acc comp => acc + comp.enthalpy_change r.reac_temp std_temp * (comp.order : ℝ)) 0
  let rxn_enthalpy_loops := r.products.foldl
    (fun acc comp => acc + comp.enthalpy_change std_temp r.reac_temp * (comp.order : ℝ)) e_reac
  let s_reac := r.reactants.foldl
    (fun acc comp => acc + comp.entropy_change r.reac_temp std_temp * (comp.order : ℝ)) 0
  let rxn_entropy_loops := r.products.foldl
    (fun acc comp => acc + comp.entropy_change std_temp r.reac_temp * (comp.order : ℝ)) s_reac
  let rxn_enthalpy := rxn_enthalpy_loops + r.rxn_std_dh
  let rxn_entropy := rxn_entropy_loops + r.rxn_std_ds
  rxn_enthalpy - r.reac_temp * rxn_entropy

/-- Embeds `Reaction.calculate_rxn_k` (src/pyreactor/reaction.py lines 63-69),
which calls `calculate_rxn_gibbs()` with the default `std_temp=STD_TEMP`. -/
def Reaction.calculate_rxn_k (r : Reaction) : ℝ :=
  Real.exp (-(r.calculate_rxn_gibbs STD_TEMP) / (R * r.reac_temp))

/-- Embeds `Reaction.reaction_equation` (src/pyreactor/reaction.py lines
72-112).  Each Python `for index, comp in enumerate(...)` loop with positional
access `init[index]` is a `List.foldl` over the zip of the species list with
the initial-moles list (identical whenever the lists positionally match, the
documented invariant); the loop state is the tuple
(numerator, equil_prod, delta_mols) resp. (denominator, equil_reac, delta_mols). -/
def Reaction.reaction_equation (r : Reaction) (chi pressure : ℝ)
    (reac_init prod_init : List ℝ) : ℝ :=
  let pState := (r.products.zip prod_init).foldl
    (fun s x =>
      let prod_term := x.2 + (x.1.order : ℝ) * chi
      (s.1 * prod_term ^ x.1.order, s.2.1 + prod_term, s.2.2 + (x.1.order : ℤ)))
    ((1 : ℝ), (0 : ℝ), (0 : ℤ))
  let rState := (r.reactants.zip reac_init).foldl
    (fun s x =>
      let reac_term := x.2 - (x.1.order : ℝ) * chi
      (s.1 * reac_term ^ x.1.order, s.2.1 + reac_term, s.2.2 - (x.1.order : ℤ)))
    ((1 : ℝ), (0 : ℝ), pState.2.2)
  let numerator := pState.1
  let equil_prod := pState.2.1
  let denominator := rState.1
  let equil_reac := rState.2.1
  let delta_mols := rState.2.2
  let total_mol_term := (equil_prod + equil_reac) ^ (-delta_mols)
  let pressure_term := pressure ^ delta_mols
  (numerator / denominator) * total_mol_term * pressure_term

/-- Python's built-in `max` over a non-empty sequence, `none` on an empty one
(where Python raises `ValueError: max() arg is an empty sequence`). -/
def listMax : List ℝ → Option ℝ
  | [] => none
  | x :: xs => some (xs.foldl max x)

/-- Python's built-in `min` over a non-empty sequence, `none` on an empty one. -/
def listMin : List ℝ → Option ℝ
  | [] => none
  | x :: xs => some (xs.foldl min x)

/-- The list `[n0 / comp.order for comp, n0 in zip(comps, inits)]` appearing in
both bracket-endpoint expressions of `calculate_conversion`. -/
def bracketRatios (comps : List Component) (inits : List ℝ) : List ℝ :=
  (comps.zip inits).map (fun x => x.2 / (x.1.order : ℝ))

/-- The margin `epsilon = 1e-5` of `calculate_conversion`
(src/pyreactor/reaction.py line 133; identical in src/reaction.py line 72). -/
def epsilon : ℝ := 1e-5

/-- The lower bracket endpoint of the core solver:
`chi_min = -max(n0 / comp.order for comp, n0 in zip(self.products, prod_init)) + epsilon`
(src/pyreactor/reaction.py line 134); `none` when the sequence is empty. -/
def Reaction.chi_min (r : Reaction) (prod_init : List ℝ) : Option ℝ :=
  (listMax (bracketRatios r.products prod_init)).map (fun M => -M + epsilon)

/-- The upper bracket endpoint of the core solver:
`chi_max = min(n0 / comp.order for comp, n0 in zip(self.reactants, reac_init)) - epsilon`
(src/pyreactor/reaction.py line 135); `none` when the sequence is empty. -/
def Reaction.chi_max (r : Reaction) (reac_init : List ℝ) : Option ℝ :=
  (listMin (bracketRatios r.reactants reac_init)).map (fun m => m - epsilon)

/-- The conditions under which the Python float evaluation of
`reaction_equation(chi, pressure, reac_init, prod_init)` raises an exception:
`IndexError` when an initial-moles list is shorter than its species list,
`ZeroDivisionError` when `(equil_prod + equil_reac) ** (-delta_mols)` has zero
base and negative exponent, when `pressure ** delta_mols` does, or when the
final division has a zero denominator.  (These are the exceptions the
`try/except` in `calculate_conversion` absorbs; real numbers have no
overflow, so the separate `np.isfinite` test never fires in this model.) -/
def Reaction.eval_raises (r : Reaction) (chi pressure : ℝ)
    (reac_init prod_init : List ℝ) : Prop :=
  let den := ((r.reactants.zip reac_init).map
    (fun x => (x.2 - (x.1.order : ℝ) * chi) ^ x.1.order)).prod
  let tot := ((r.products.zip prod_init).map
      (fun x => x.2 + (x.1.order : ℝ) * chi)).sum
    + ((r.reactants.zip reac_init).map
      (fun x => x.2 - (x.1.order : ℝ) * chi)).sum
  let dm : ℤ := ((r.products.zip prod_init).map (fun x => (x.1.order : ℤ))).sum
    - ((r.reactants.zip reac_init).map (fun x => (x.1.order : ℤ))).sum
  prod_init.length < r.products.length ∨ reac_init.length < r.reactants.length
    ∨ (tot = 0 ∧ 0 < dm) ∨ (pressure = 0 ∧ dm < 0) ∨ den = 0

/-- Embeds the closure `residual` defined inside `calculate_conversion`
(src/pyreactor/reaction.py lines 137-144): the value `Q(chi) - k_eq` when its
evaluation neither raises nor is non-finite, the fixed penalty `1e10`
otherwise. -/
def Reaction.residual (r : Reaction) (pressure : ℝ)
    (reac_init prod_init : List ℝ) (k_eq : ℝ) (chi : ℝ) : ℝ :=
  if r.eval_raises chi pressure reac_init prod_init then 1e10
  else r.reaction_equation chi pressure reac_init prod_init - k_eq

/-- The distinct failure modes of `calculate_conversion`: the two `ValueError`s
from `max`/`min` over an empty sequence (line 134 resp. 135), the
`RuntimeError` carrying the bracket endpoints and both endpoint residuals
(line 150), and the `RuntimeError` for an unconverged root search (line 156). -/
inductive ConvError where
  | emptyProducts
  | emptyReactants
  | noSignChange (chi_min chi_max f_min f_max : ℝ)
  | notConverged

/-- Embeds `Reaction.calculate_conversion` (src/pyreactor/reaction.py lines
115-156).  The external `scipy.optimize.root_scalar(residual, method="brentq",
bracket=[chi_min, chi_max])` call is a `solver` parameter returning
`some root` when `sol.converged` and `none` otherwise; errors are returned as
`Except.error` values in the order the Python statements raise them. -/
def Reaction.calculate_conversion (r : Reaction)
    (solver : (ℝ → ℝ) → ℝ → ℝ → Option ℝ)
    (pressure : ℝ) (reac_init prod_init : List ℝ) (k_eq : ℝ) :
    Except ConvError ℝ :=
  match r.chi_min prod_init with
  | none => .error .emptyProducts
  | some chiMin =>
    match r.chi_max reac_init with
    | none => .error .emptyReactants
    | some chiMax =>
      let f := r.residual pressure reac_init prod_init k_eq
      let f_min := f chiMin
      let f_max := f chiMax
      if 0 < f_min * f_max then .error (.noSignChange chiMin chiMax f_min f_max)
      else
        match solver f chiMin chiMax with
        | some root => .ok root
        | none => .error .notConverged

namespace Legacy

/-- The lower bracket endpoint of the legacy top-level copy:
`chi_min = -max(n0 / comp.order for comp, n0 in zip(self.products, prod_init)) - epsilon`
(src/reaction.py line 73; note `- epsilon` where the core copy has `+ epsilon`). -/
def chi_min (r : Reaction) (prod_init : List ℝ) : Option ℝ :=
  (listMax (bracketRatios r.products prod_init)).map (fun M => -M - epsilon)

/-- The upper bracket endpoint of the legacy top-level copy:
`chi_max = min(n0 / comp.order for comp, n0 in zip(self.reactants, reac_init)) + epsilon`
(src/reaction.py line 74; note `+ epsilon` where the core copy has `- epsilon`). -/
def chi_max (r : Reaction) (reac_init : List ℝ) : Option ℝ :=
  (listMin (bracketRatios r.reactants reac_init)).map (fun m => m + epsilon)

end Legacy

/-! ### Helper lemmas about the Python `max`/`min` built-ins -/

lemma foldl_max_mem (x : ℝ) (l : List ℝ) : l.foldl max x ∈ x :: l := by
  induction l generalizing x with
  | nil => simp [List.foldl]
  | cons y ys ih =>
    have h := ih (max x y)
    have hfold : (y :: ys).foldl max x = ys.foldl max (max x y) := rfl
    rw [hfold]
    rcases List.mem_cons.mp h with h1 | h1
    · rw [h1]
      rcases max_choice x y with h2 | h2 <;> rw [h2]
      · exact List.mem_cons_self _ _
      · exact List.mem_cons_of_mem _ (List.mem_cons_self _ _)
    · exact List.mem_cons_of_mem _ (List.mem_cons_of_mem _ h1)

lemma le_foldl_max (x : ℝ) (l : List ℝ) : ∀ y ∈ x :: l, y ≤ l.foldl max x := by
  induction l generalizing x with
  | nil => intro y hy; simp at hy; simp [hy, List.foldl]
  | cons z zs ih =>
    intro y hy
    have step : (z :: zs).foldl max x = zs.foldl max (max x z) := rfl
    rw [step]
    rcases List.mem_cons.mp hy with h | h
    · subst h
      exact le_trans (le_max_left y z) (ih (max y z) (max y z) (List.mem_cons_self _ _))
    · rcases List.mem_cons.mp h with h1 | h1
      · subst h1
        exact le_trans (le_max_right x y) (ih (max x y) (max x y) (List.mem_cons_self _ _))
      · exact ih (max x z) y (List.mem_cons_of_mem _ h1)

lemma foldl_min_mem (x : ℝ) (l : List ℝ) : l.foldl min x ∈ x :: l := by
  induction l generalizing x with
  | nil => simp [List.foldl]
  | cons y ys ih =>
    have h := ih (min x y)
    have hfold : (y :: ys).foldl min x = ys.foldl min (min x y) := rfl
    rw [hfold]
    rcases List.mem_cons.mp h with h1 | h1
    · rw [h1]
      rcases min_choice x y with h2 | h2 <;> rw [h2]
      · exact List.mem_cons_self _ _
      · exact List.mem_cons_of_mem _ (List.mem_cons_self _ _)
    · exact List.mem_cons_of_mem _ (List.mem_cons_of_mem _ h1)

lemma foldl_min_le (x : ℝ) (l : List ℝ) : ∀ y ∈ x :: l, l.foldl min x ≤ y := by
  induction l generalizing x with
  | nil => intro y hy; simp at hy; simp [hy, List.foldl]
  | cons z zs ih =>
    intro y hy
    have step : (z :: zs).foldl min x = zs.foldl min (min x z) := rfl
    rw [step]
    rcases List.mem_cons.mp hy with h | h
    · subst h
      exact le_trans (ih (min y z) (min y z) (List.mem_cons_self _ _)) (min_le_left y z)
    · rcases List.mem_cons.mp h with h1 | h1
      · subst h1
        exact le_trans (ih (min x y) (min x y) (List.mem_cons_self _ _)) (min_le_right x y)
      · exact ih (min x z) y (List.mem_cons_of_mem _ h1)

lemma listMax_eq_none_iff (l : List ℝ) : listMax l = none ↔ l = [] := by
  cases l <;> simp [listMax]

lemma listMin_eq_none_iff (l : List ℝ) : listMin l = none ↔ l = [] := by
  cases l <;> simp [listMin]

lemma bracketRatios_eq_nil_iff (comps : List Component) (inits : List ℝ) :
    bracketRatios comps inits = [] ↔ comps = [] ∨ inits = [] := by
  unfold bracketRatios
  cases comps <;> cases inits <;> simp

lemma epsilon_pos : (0 : ℝ) < epsilon := by norm_num [epsilon]

lemma chi_min_eq_none_iff (r : Reaction) (prod_init : List ℝ) :
    r.chi_min prod_init = none ↔ r.products = [] ∨ prod_init = [] := by
  simp [Reaction.chi_min, listMax_eq_none_iff, bracketRatios_eq_nil_iff]

lemma chi_max_eq_none_iff (r : Reaction) (reac_init : List ℝ) :
    r.chi_max reac_init = none ↔ r.reactants = [] ∨ reac_init = [] := by
  simp [Reaction.chi_max, listMin_eq_none_iff, bracketRatios_eq_nil_iff]

/-! ### Claims C1, C9, C10: search bracket construction -/

/-- Claim C1: in `calculate_conversion` the bracket is
`chi_max = (min over reactants j of reac_init[j] / order_j) - epsilon` and
`chi_min = -(max over products i of prod_init[i] / order_i) + epsilon` with
`epsilon = 1e-5`, so the margin strictly narrows the bracket at both ends,
for every `Reaction` with non-empty reactant and product lists and
positionally matching initial-moles sequences. -/
theorem conversion_bracket_margins (r : Reaction) (reac_init prod_init : List ℝ)
    (hre : r.reactants ≠ []) (hri : reac_init ≠ [])
    (hpe : r.products ≠ []) (hpi : prod_init ≠ []) :
    ∃ mn MX,
      mn ∈ bracketRatios r.reactants reac_init ∧
      (∀ y ∈ bracketRatios r.reactants reac_init, mn ≤ y) ∧
      MX ∈ bracketRatios r.products prod_init ∧
      (∀ y ∈ bracketRatios r.products prod_init, y ≤ MX) ∧
      r.chi_max reac_init = some (mn - epsilon) ∧
      r.chi_min prod_init = some (-MX + epsilon) ∧
      mn - epsilon < mn ∧ -MX < -MX + epsilon := by
  obtain ⟨c, cs, hc⟩ := List.exists_cons_of_ne_nil hre
  obtain ⟨u, us, hu⟩ := List.exists_cons_of_ne_nil hri
  obtain ⟨d, ds, hd⟩ := List.exists_cons_of_ne_nil hpe
  obtain ⟨v, vs, hv⟩ := List.exists_cons_of_ne_nil hpi
  have hR : bracketRatios r.reactants reac_init
      = (u / (c.order : ℝ)) :: bracketRatios cs us := by
    rw [hc, hu]; rfl
  have hP : bracketRatios r.products prod_init
      = (v / (d.order : ℝ)) :: bracketRatios ds vs := by
    rw [hd, hv]; rfl
  refine ⟨(bracketRatios cs us).foldl min (u / (c.order : ℝ)),
    (bracketRatios ds vs).foldl max (v / (d.order : ℝ)), ?_, ?_, ?_, ?_, ?_, ?_, ?_, ?_⟩
  · rw [hR]; exact foldl_min_mem _ _
  · intro y hy; rw [hR] at hy; exact foldl_min_le _ _ y hy
  · rw [hP]; exact foldl_max_mem _ _
  · intro y hy; rw [hP] at hy; exact le_foldl_max _ _ y hy
  · rw [Reaction.chi_max, hR]; rfl
  · rw [Reaction.chi_min, hP]; rfl
  · linarith [epsilon_pos]
  · linarith [epsilon_pos]

/-- Witness for C1 at a concrete one-reactant, one-product reaction. -/
theorem conversion_bracket_margins_witness :
    ∃ mn MX,
      mn ∈ bracketRatios [⟨"A", 1, 0, 0, 0, 0, 0⟩] [2] ∧
      (∀ y ∈ bracketRatios [⟨"A", 1, 0, 0, 0, 0, 0⟩] [2], mn ≤ y) ∧
      MX ∈ bracketRatios [⟨"B", 1, 0, 0, 0, 0, 0⟩] [3] ∧
      (∀ y ∈ bracketRatios [⟨"B", 1, 0, 0, 0, 0, 0⟩] [3], y ≤ MX) ∧
      Reaction.chi_max ⟨[⟨"A", 1, 0, 0, 0, 0, 0⟩], [⟨"B", 1, 0, 0, 0, 0, 0⟩],
        0, 0, "ideal", 500⟩ [2] = some (mn - epsilon) ∧
      Reaction.chi_min ⟨[⟨"A", 1, 0, 0, 0, 0, 0⟩], [⟨"B", 1, 0, 0, 0, 0, 0⟩],
        0, 0, "ideal", 500⟩ [3] = some (-MX + epsilon) ∧
      mn - epsilon < mn ∧ -MX < -MX + epsilon :=
  conversion_bracket_margins
    ⟨[⟨"A", 1, 0, 0, 0, 0, 0⟩], [⟨"B", 1, 0, 0, 0, 0, 0⟩], 0, 0, "ideal", 500⟩
    [2] [3] (by simp) (by simp) (by simp) (by simp)

/-- Claim C9: for the same species and initial moles, the legacy top-level
bracket (src/reaction.py) differs from the core bracket exactly by the sign of
`epsilon`: its `chi_min` is `2 * epsilon` smaller and its `chi_max` is
`2 * epsilon` larger than the core copy's, with `epsilon = 1e-5` in both, so
the legacy copy widens the bracket where the core copy narrows it. -/
theorem legacy_bracket_offsets (r : Reaction) (reac_init prod_init : List ℝ) :
    Legacy.chi_min r prod_init
      = (r.chi_min prod_init).map (fun a => a - 2 * epsilon) ∧
    Legacy.chi_max r reac_init
      = (r.chi_max reac_init).map (fun b => b + 2 * epsilon) ∧
    epsilon = 1e-5 := by
  refine ⟨?_, ?_, rfl⟩
  · rw [Legacy.chi_min, Reaction.chi_min]
    cases listMax (bracketRatios r.products prod_init) with
    | none => rfl
    | some M => simp [Option.map]; ring
  · rw [Legacy.chi_max, Reaction.chi_max]
    cases listMin (bracketRatios r.reactants reac_init) with
    | none => rfl
    | some m => simp [Option.map]; ring

/-- Claim C10: when the products list (with its matching `prod_init`) or the
reactants list (with its matching `reac_init`) is empty, `calculate_conversion`
fails while computing the bracket endpoints (`max`/`min` of an empty
sequence), before any residual evaluation or root search, for every solver and
every other argument: non-empty species lists are an undocumented
precondition. -/
theorem conversion_empty_species_error (r : Reaction)
    (solver : (ℝ → ℝ) → ℝ → ℝ → Option ℝ)
    (pressure k_eq : ℝ) (reac_init prod_init : List ℝ) :
    (r.products = [] →
      r.calculate_conversion solver pressure reac_init prod_init k_eq
        = .error .emptyProducts) ∧
    (r.products ≠ [] → prod_init ≠ [] → r.reactants = [] →
      r.calculate_conversion solver pressure reac_init prod_init k_eq
        = .error .emptyReactants) := by
  constructor
  · intro hp
    have h1 : r.chi_min prod_init = none :=
      (chi_min_eq_none_iff r prod_init).mpr (Or.inl hp)
    rw [Reaction.calculate_conversion, h1]
  · intro hp hpi hr
    have h2 : r.chi_max reac_init = none :=
      (chi_max_eq_none_iff r reac_init).mpr (Or.inl hr)
    cases h1 : r.chi_min prod_init with
    | none =>
      rcases (chi_min_eq_none_iff r prod_init).mp h1 with h | h
      · exact absurd h hp
      · exact absurd h hpi
    | some a => rw [Reaction.calculate_conversion, h1, h2]

/-- Witness for C10: a reaction with an empty products list fails with the
empty-sequence error, and one with an empty reactants list likewise. -/
theorem conversion_empty_species_error_witness :
    Reaction.calculate_conversion ⟨[⟨"A", 1, 0, 0, 0, 0, 0⟩], [], 0, 0, "ideal", 500⟩
      (fun _ _ _ => none) 1 [1] [] 1 = .error .emptyProducts ∧
    Reaction.calculate_conversion ⟨[], [⟨"B", 1, 0, 0, 0, 0, 0⟩], 0, 0, "ideal", 500⟩
      (fun _ _ _ => none) 1 [] [1] 1 = .error .emptyReactants :=
  ⟨(conversion_empty_species_error
      ⟨[⟨"A", 1, 0, 0, 0, 0, 0⟩], [], 0, 0, "ideal", 500⟩
      (fun _ _ _ => none) 1 1 [1] []).1 rfl,
   (conversion_empty_species_error
      ⟨[], [⟨"B", 1, 0, 0, 0, 0, 0⟩], 0, 0, "ideal", 500⟩
      (fun _ _ _ => none) 1 1 [] [1]).2 (by simp) (by simp) rfl⟩

/-! ### Claim C2: closed form of the reaction-quotient loops -/

lemma products_fold_closed (chi : ℝ) (l : List (Component × ℝ)) (a b : ℝ) (d : ℤ) :
    l.foldl (fun s x =>
      let prod_term := x.2 + (x.1.order : ℝ) * chi
      (s.1 * prod_term ^ x.1.order, s.2.1 + prod_term, s.2.2 + (x.1.order : ℤ)))
      (a, b, d)
    = (a * (l.map (fun x => (x.2 + (x.1.order : ℝ) * chi) ^ x.1.order)).prod,
       b + (l.map (fun x => x.2 + (x.1.order : ℝ) * chi)).sum,
       d + (l.map (fun x => (x.1.order : ℤ))).sum) := by
  induction l generalizing a b d with
  | nil => simp
  | cons y ys ih =>
    simp only [List.foldl_cons, List.map_cons, List.prod_cons, List.sum_cons]
    rw [ih]
    simp only [Prod.mk.injEq]
    exact ⟨by ring, by ring, by ring⟩

lemma reactants_fold_closed (chi : ℝ) (l : List (Component × ℝ)) (a b : ℝ) (d : ℤ) :
    l.foldl (fun s x =>
      let reac_term := x.2 - (x.1.order : ℝ) * chi
      (s.1 * reac_term ^ x.1.order, s.2.1 + reac_term, s.2.2 - (x.1.order : ℤ)))
      (a, b, d)
    = (a * (l.map (fun x => (x.2 - (x.1.order : ℝ) * chi) ^ x.1.order)).prod,
       b + (l.map (fun x => x.2 - (x.1.order : ℝ) * chi)).sum,
       d - (l.map (fun x => (x.1.order : ℤ))).sum) := by
  induction l generalizing a b d with
  | nil => simp
  | cons y ys ih =>
    simp only [List.foldl_cons, List.map_cons, List.prod_cons, List.sum_cons]
    rw [ih]
    simp only [Prod.mk.injEq]
    exact ⟨by ring, by ring, by ring⟩

/-- Claim C2: `reaction_equation(chi, pressure, reac_init, prod_init)` returns
`(numerator / denominator) * total_moles ^ (-net_mole_change) *
pressure ^ net_mole_change`, where `numerator` is the product over products of
`(prod_init[i] + order_i * chi) ^ order_i`, `denominator` the product over
reactants of `(reac_init[j] - order_j * chi) ^ order_j`, `net_mole_change` the
sum of product orders minus the sum of reactant orders, and `total_moles` the
sum of all current product and reactant moles at `chi`. -/
theorem reaction_equation_closed_form (r : Reaction) (chi pressure : ℝ)
    (reac_init prod_init : List ℝ) :
    r.reaction_equation chi pressure reac_init prod_init =
      (((r.products.zip prod_init).map
          (fun x => (x.2 + (x.1.order : ℝ) * chi) ^ x.1.order)).prod
        / ((r.reactants.zip reac_init).map
          (fun x => (x.2 - (x.1.order : ℝ) * chi) ^ x.1.order)).prod)
      * ((((r.products.zip prod_init).map
            (fun x => x.2 + (x.1.order : ℝ) * chi)).sum
          + ((r.reactants.zip reac_init).map
            (fun x => x.2 - (x.1.order : ℝ) * chi)).sum)
          ^ (-(((r.products.zip prod_init).map (fun x => (x.1.order : ℤ))).sum
              - ((r.reactants.zip reac_init).map (fun x => (x.1.order : ℤ))).sum)))
      * pressure ^ (((r.products.zip prod_init).map (fun x => (x.1.order : ℤ))).sum
              - ((r.reactants.zip reac_init).map (fun x => (x.1.order : ℤ))).sum) := by
  unfold Reaction.reaction_equation
  simp only [products_fold_closed, reactants_fold_closed, one_mul, zero_add]

/-! ### Claims C6, C7: Gibbs free energy and equilibrium constant -/

lemma foldl_add_eq_of_zero {α : Type} (l : List α) (g : α → ℝ) (a : ℝ)
    (h : ∀ c ∈ l, g c = 0) : l.foldl (fun acc c => acc + g c) a = a := by
  induction l generalizing a with
  | nil => rfl
  | cons y ys ih =>
    simp only [List.foldl_cons]
    rw [h y (List.mem_cons_self _ _), add_zero]
    exact ih a fun c hc => h c (List.mem_cons_of_mem _ hc)

lemma enthalpy_change_self (c : Component) (T : ℝ) : c.enthalpy_change T T = 0 :=
  sub_self _

lemma entropy_change_self (c : Component) (T : ℝ) : c.entropy_change T T = 0 :=
  sub_self _

/-- Claim C6: for a reaction whose temperature equals the (strictly positive)
reference temperature, `calculate_rxn_gibbs` returns exactly
`rxn_std_dh - reac_temp * rxn_std_ds`, independently of the species lists and
their heat-capacity coefficients: every per-species integral is taken over a
degenerate temperature interval and vanishes. -/
theorem gibbs_at_reference_temperature (r : Reaction) (std_temp : ℝ)
    (hT : r.reac_temp = std_temp) (_hpos : 0 < std_temp) :
    r.calculate_rxn_gibbs std_temp = r.rxn_std_dh - r.reac_temp * r.rxn_std_ds := by
  have hER : r.reactants.foldl
      (fun acc comp => acc + comp.enthalpy_change std_temp std_temp * (comp.order : ℝ)) 0
      = 0 :=
    foldl_add_eq_of_zero _ _ _ (fun c _ => by rw [enthalpy_change_self, zero_mul])
  have hEP : r.products.foldl
      (fun acc comp => acc + comp.enthalpy_change std_temp std_temp * (comp.order : ℝ)) 0
      = 0 :=
    foldl_add_eq_of_zero _ _ _ (fun c _ => by rw [enthalpy_change_self, zero_mul])
  have hSR : r.reactants.foldl
      (fun acc comp => acc + comp.entropy_change std_temp std_temp * (comp.order : ℝ)) 0
      = 0 :=
    foldl_add_eq_of_zero _ _ _ (fun c _ => by rw [entropy_change_self, zero_mul])
  have hSP : r.products.foldl
      (fun acc comp => acc + comp.entropy_change std_temp std_temp * (comp.order : ℝ)) 0
      = 0 :=
    foldl_add_eq_of_zero _ _ _ (fun c _ => by rw [entropy_change_self, zero_mul])
  simp only [Reaction.calculate_rxn_gibbs, hT, hER, hEP, hSR, hSP, zero_add]

/-- Witness for C6 at a concrete reaction (N2 and NH3 Shomate coefficients
from the repository's example driver) at reaction temperature 500 K. -/
theorem gibbs_at_reference_temperature_witness :
    Reaction.calculate_rxn_gibbs
      ⟨[⟨"N2", 1, 19.50583, 19.88705, -8.598535, 1.369784, 0.527601⟩],
       [⟨"NH3", 2, 19.99563, 49.77119, -15.37599, 1.921168, 0.189174⟩],
       -92000, -199, "ideal", 500⟩ 500
      = -92000 - 500 * (-199) := by
  have h := gibbs_at_reference_temperature
/- structure fields: reactants, products, dh, ds, eos, temp -/
    ⟨[⟨"N2", 1, 19.50583, 19.88705, -8.598535, 1.369784, 0.527601⟩],
     [⟨"NH3", 2, 19.99563, 49.77119, -15.37599, 1.921168, 0.189174⟩],
     -92000, -199, "ideal", 500⟩ 500 rfl (by norm_num)
  exact h

/-- Claim C7: `calculate_rxn_k()` returns
`exp(-G / (R * reac_temp))` with `G = calculate_rxn_gibbs()` evaluated at the
default reference temperature, and the returned equilibrium constant is
strictly positive (in this real-number model every Gibbs value is finite). -/
theorem rxn_k_formula (r : Reaction) (_hT : r.reac_temp ≠ 0) :
    r.calculate_rxn_k
      = Real.exp (-(r.calculate_rxn_gibbs STD_TEMP) / (R * r.reac_temp)) ∧
    0 < r.calculate_rxn_k :=
  ⟨rfl, Real.exp_pos _⟩

/-- Witness for C7 at a concrete reaction with temperature 500 K. -/
theorem rxn_k_formula_witness :
    Reaction.calculate_rxn_k
      ⟨[⟨"N2", 1, 19.50583, 19.88705, -8.598535, 1.369784, 0.527601⟩],
       [⟨"NH3", 2, 19.99563, 49.77119, -15.37599, 1.921168, 0.189174⟩],
       -92000, -199, "ideal", 500⟩
      = Real.exp (-(Reaction.calculate_rxn_gibbs
          ⟨[⟨"N2", 1, 19.50583, 19.88705, -8.598535, 1.369784, 0.527601⟩],
           [⟨"NH3", 2, 19.99563, 49.77119, -15.37599, 1.921168, 0.189174⟩],
           -92000, -199, "ideal", 500⟩ STD_TEMP) / (R * 500)) ∧
    0 < Reaction.calculate_rxn_k
      ⟨[⟨"N2", 1, 19.50583, 19.88705, -8.598535, 1.369784, 0.527601⟩],
       [⟨"NH3", 2, 19.99563, 49.77119, -15.37599, 1.921168, 0.189174⟩],
       -92000, -199, "ideal", 500⟩ :=
  rxn_k_formula
    ⟨[⟨"N2", 1, 19.50583, 19.88705, -8.598535, 1.369784, 0.527601⟩],
     [⟨"NH3", 2, 19.99563, 49.77119, -15.37599, 1.921168, 0.189174⟩],
     -92000, -199, "ideal", 500⟩ (by norm_num)

/-! ### Claim C4: the residual function absorbs evaluation failures -/

/-- Claim C4: the residual used inside `calculate_conversion` returns
`Q(chi) - k_eq` whenever the quotient evaluates cleanly, and the fixed penalty
`1e10` whenever its evaluation raises (the conditions of `eval_raises`); it is
a total function of `chi`, so no exception reaches the bracket check or the
root search.  (Float overflow to non-finite values has no counterpart among
the reals; the non-finite branch of the Python code is absorbed into
`eval_raises`.) -/
theorem residual_penalty_spec (r : Reaction) (pressure k_eq : ℝ)
    (reac_init prod_init : List ℝ) (chi : ℝ) :
    (¬ r.eval_raises chi pressure reac_init prod_init →
      r.residual pressure reac_init prod_init k_eq chi
        = r.reaction_equation chi pressure reac_init prod_init - k_eq) ∧
    (r.eval_raises chi pressure reac_init prod_init →
      r.residual pressure reac_init prod_init k_eq chi = 1e10) := by
  constructor
  · intro h; rw [Reaction.residual, if_neg h]
  · intro h; rw [Reaction.residual, if_pos h]

/-- Witness for C4: a concrete clean evaluation (no raise, value `Q - k`) and
a concrete raising evaluation (zero denominator, penalty `1e10`). -/
theorem residual_penalty_spec_witness :
    Reaction.residual ⟨[⟨"A", 1, 0, 0, 0, 0, 0⟩], [⟨"B", 1, 0, 0, 0, 0, 0⟩],
        0, 0, "ideal", 500⟩ 1 [1] [1] 0 0
      = Reaction.reaction_equation ⟨[⟨"A", 1, 0, 0, 0, 0, 0⟩], [⟨"B", 1, 0, 0, 0, 0, 0⟩],
        0, 0, "ideal", 500⟩ 0 1 [1] [1] - 0 ∧
    Reaction.residual ⟨[⟨"A", 1, 0, 0, 0, 0, 0⟩], [⟨"B", 1, 0, 0, 0, 0, 0⟩],
        0, 0, "ideal", 500⟩ 1 [1] [1] 0 1
      = 1e10 := by
  constructor
  · exact (residual_penalty_spec
      ⟨[⟨"A", 1, 0, 0, 0, 0, 0⟩], [⟨"B", 1, 0, 0, 0, 0, 0⟩], 0, 0, "ideal", 500⟩
      1 0 [1] [1] 0).1 (by norm_num [Reaction.eval_raises])
  · exact (residual_penalty_spec
      ⟨[⟨"A", 1, 0, 0, 0, 0, 0⟩], [⟨"B", 1, 0, 0, 0, 0, 0⟩], 0, 0, "ideal", 500⟩
      1 0 [1] [1] 1).2 (by norm_num [Reaction.eval_raises])

/-! ### Claim C3: failure modes of the conversion solver -/

/-- Claim C3: once the bracket endpoints exist, `calculate_conversion` fails
if and only if the endpoint residuals have strictly positive product (failing
with an error carrying both endpoint residual values) or the root search does
not converge (failing with the distinct non-convergence error); in every other
case it returns the converged root, which lies in `[chi_min, chi_max]` for a
bracketed solver.  No retry occurs and no unconverged estimate is returned. -/
theorem calculate_conversion_spec (r : Reaction)
    (solver : (ℝ → ℝ) → ℝ → ℝ → Option ℝ)
    (pressure k_eq : ℝ) (reac_init prod_init : List ℝ) (chiMin chiMax : ℝ)
    (hmin : r.chi_min prod_init = some chiMin)
    (hmax : r.chi_max reac_init = some chiMax)
    (hsol : ∀ g a b x, solver g a b = some x → a ≤ x ∧ x ≤ b) :
    (0 < r.residual pressure reac_init prod_init k_eq chiMin
        * r.residual pressure reac_init prod_init k_eq chiMax →
      r.calculate_conversion solver pressure reac_init prod_init k_eq
        = .error (.noSignChange chiMin chiMax
            (r.residual pressure reac_init prod_init k_eq chiMin)
            (r.residual pressure reac_init prod_init k_eq chiMax))) ∧
    (¬ 0 < r.residual pressure reac_init prod_init k_eq chiMin
        * r.residual pressure reac_init prod_init k_eq chiMax →
      solver (r.residual pressure reac_init prod_init k_eq) chiMin chiMax = none →
      r.calculate_conversion solver pressure reac_init prod_init k_eq
        = .error .notConverged) ∧
    (∀ x, r.calculate_conversion solver pressure reac_init prod_init k_eq = .ok x →
      solver (r.residual pressure reac_init prod_init k_eq) chiMin chiMax = some x ∧
      ¬ 0 < r.residual pressure reac_init prod_init k_eq chiMin
          * r.residual pressure reac_init prod_init k_eq chiMax ∧
      chiMin ≤ x ∧ x ≤ chiMax) ∧
    ((∃ e, r.calculate_conversion solver pressure reac_init prod_init k_eq
        = .error e) ↔
      (0 < r.residual pressure reac_init prod_init k_eq chiMin
          * r.residual pressure reac_init prod_init k_eq chiMax ∨
        solver (r.residual pressure reac_init prod_init k_eq) chiMin chiMax = none)) := by
  have hred : r.calculate_conversion solver pressure reac_init prod_init k_eq
      = (if 0 < r.residual pressure reac_init prod_init k_eq chiMin
            * r.residual pressure reac_init prod_init k_eq chiMax
        then Except.error (ConvError.noSignChange chiMin chiMax
            (r.residual pressure reac_init prod_init k_eq chiMin)
            (r.residual pressure reac_init prod_init k_eq chiMax))
        else match solver (r.residual pressure reac_init prod_init k_eq) chiMin chiMax with
          | some root => Except.ok root
          | none => Except.error ConvError.notConverged) := by
    rw [Reaction.calculate_conversion, hmin, hmax]
  refine ⟨?_, ?_, ?_, ?_⟩
  · intro h; rw [hred, if_pos h]
  · intro h hnone; rw [hred, if_neg h, hnone]
  · intro x hx
    rw [hred] at hx
    by_cases h : 0 < r.residual pressure reac_init prod_init k_eq chiMin
        * r.residual pressure reac_init prod_init k_eq chiMax
    · rw [if_pos h] at hx; exact absurd hx (by simp)
    · rw [if_neg h] at hx
      cases hs : solver (r.residual pressure reac_init prod_init k_eq) chiMin chiMax with
      | none => rw [hs] at hx; exact absurd hx (by simp)
      | some y =>
        rw [hs] at hx
        have hyx : y = x := by injection hx
        subst hyx
        exact ⟨rfl, h, (hsol _ _ _ _ hs).1, (hsol _ _ _ _ hs).2⟩
  · constructor
    · rintro ⟨e, he⟩
      rw [hred] at he
      by_cases h : 0 < r.residual pressure reac_init prod_init k_eq chiMin
          * r.residual pressure reac_init prod_init k_eq chiMax
      · exact Or.inl h
      · rw [if_neg h] at he
        cases hs : solver (r.residual pressure reac_init prod_init k_eq) chiMin chiMax with
        | none => exact Or.inr rfl
        | some y => rw [hs] at he; exact absurd he (by simp)
    · intro h
      by_cases hsign : 0 < r.residual pressure reac_init prod_init k_eq chiMin
          * r.residual pressure reac_init prod_init k_eq chiMax
      · exact ⟨_, by rw [hred, if_pos hsign]⟩
      · rcases h with h | h
        · exact absurd h hsign
        · exact ⟨.notConverged, by rw [hred, if_neg hsign, h]⟩

/-- Witness for C3: with a solver that never converges, the concrete solve
fails with an error. -/
theorem calculate_conversion_spec_witness :
    ∃ e, Reaction.calculate_conversion
      ⟨[⟨"A", 1, 0, 0, 0, 0, 0⟩], [⟨"B", 1, 0, 0, 0, 0, 0⟩], 0, 0, "ideal", 500⟩
      (fun _ _ _ => none) 1 [1] [1] 0 = .error e :=
  ((calculate_conversion_spec
    ⟨[⟨"A", 1, 0, 0, 0, 0, 0⟩], [⟨"B", 1, 0, 0, 0, 0, 0⟩], 0, 0, "ideal", 500⟩
    (fun _ _ _ => none) 1 0 [1] [1] (-1 + epsilon) (1 - epsilon)
    (by norm_num [Reaction.chi_min, bracketRatios, listMax])
    (by norm_num [Reaction.chi_max, bracketRatios, listMin])
    (by intro g a b x h; simp at h)).2.2.2).mpr (Or.inr rfl)

/-! ### Claim C8: the equation-of-state tag has no effect -/

/-- Claim C8: two reactions identical in reactants, products, standard
enthalpy and entropy changes, and reaction temperature but differing in the
`eos` string produce identical results — and identical errors — from
`calculate_rxn_gibbs`, `calculate_rxn_k`, `reaction_equation` and
`calculate_conversion` on identical arguments. -/
theorem eos_tag_no_effect (r1 r2 : Reaction)
    (hre : r1.reactants = r2.reactants) (hpr : r1.products = r2.products)
    (hdh : r1.rxn_std_dh = r2.rxn_std_dh) (hds : r1.rxn_std_ds = r2.rxn_std_ds)
    (hT : r1.reac_temp = r2.reac_temp) :
    (∀ std_temp, r1.calculate_rxn_gibbs std_temp = r2.calculate_rxn_gibbs std_temp) ∧
    r1.calculate_rxn_k = r2.calculate_rxn_k ∧
    (∀ chi pressure reac_init prod_init,
      r1.reaction_equation chi pressure reac_init prod_init
        = r2.reaction_equation chi pressure reac_init prod_init) ∧
    (∀ (solver : (ℝ → ℝ) → ℝ → ℝ → Option ℝ) pressure reac_init prod_init k_eq,
      r1.calculate_conversion solver pressure reac_init prod_init k_eq
        = r2.calculate_conversion solver pressure reac_init prod_init k_eq) := by
  obtain ⟨re1, pr1, dh1, ds1, e1, T1⟩ := r1
  obtain ⟨re2, pr2, dh2, ds2, e2, T2⟩ := r2
  dsimp only at hre hpr hdh hds hT
  subst hre hpr hdh hds hT
  exact ⟨fun _ => rfl, rfl, fun _ _ _ _ => rfl, fun _ _ _ _ _ => rfl⟩

/-- Witness for C8: two concrete reactions differing only in the equation of
state tag agree on every exposed operation. -/
theorem eos_tag_no_effect_witness :
    (∀ std_temp,
      Reaction.calculate_rxn_gibbs
        ⟨[⟨"A", 1, 0, 0, 0, 0, 0⟩], [⟨"B", 1, 0, 0, 0, 0, 0⟩], 3, 4, "ideal", 500⟩ std_temp
        = Reaction.calculate_rxn_gibbs
        ⟨[⟨"A", 1, 0, 0, 0, 0, 0⟩], [⟨"B", 1, 0, 0, 0, 0, 0⟩], 3, 4, "peng-robinson", 500⟩
          std_temp) ∧
    Reaction.calculate_rxn_k
      ⟨[⟨"A", 1, 0, 0, 0, 0, 0⟩], [⟨"B", 1, 0, 0, 0, 0, 0⟩], 3, 4, "ideal", 500⟩
      = Reaction.calculate_rxn_k
      ⟨[⟨"A", 1, 0, 0, 0, 0, 0⟩], [⟨"B", 1, 0, 0, 0, 0, 0⟩], 3, 4, "peng-robinson", 500⟩ ∧
    (∀ chi pressure reac_init prod_init,
      Reaction.reaction_equation
        ⟨[⟨"A", 1, 0, 0, 0, 0, 0⟩], [⟨"B", 1, 0, 0, 0, 0, 0⟩], 3, 4, "ideal", 500⟩
        chi pressure reac_init prod_init
        = Reaction.reaction_equation
        ⟨[⟨"A", 1, 0, 0, 0, 0, 0⟩], [⟨"B", 1, 0, 0, 0, 0, 0⟩], 3, 4, "peng-robinson", 500⟩
        chi pressure reac_init prod_init) ∧
    (∀ (solver : (ℝ → ℝ) → ℝ → ℝ → Option ℝ) pressure reac_init prod_init k_eq,
      Reaction.calculate_conversion
        ⟨[⟨"A", 1, 0, 0, 0, 0, 0⟩], [⟨"B", 1, 0, 0, 0, 0, 0⟩], 3, 4, "ideal", 500⟩
        solver pressure reac_init prod_init k_eq
        = Reaction.calculate_conversion
        ⟨[⟨"A", 1, 0, 0, 0, 0, 0⟩], [⟨"B", 1, 0, 0, 0, 0, 0⟩], 3, 4, "peng-robinson", 500⟩
        solver pressure reac_init prod_init k_eq) :=
  eos_tag_no_effect
    ⟨[⟨"A", 1, 0, 0, 0, 0, 0⟩], [⟨"B", 1, 0, 0, 0, 0, 0⟩], 3, 4, "ideal", 500⟩
    ⟨[⟨"A", 1, 0, 0, 0, 0, 0⟩], [⟨"B", 1, 0, 0, 0, 0, 0⟩], 3, 4, "peng-robinson", 500⟩
    rfl rfl rfl rfl rfl

/-! ### Claim C5: strict monotonicity of the quotient for 1-to-1 reactions -/

lemma reaction_equation_single (rc pc : Component) (r : Reaction)
    (hre : r.reactants = [rc]) (hpe : r.products = [pc])
    (chi pressure a b : ℝ) :
    r.reaction_equation chi pressure [a] [b]
      = ((b + (pc.order : ℝ) * chi) ^ pc.order
          / (a - (rc.order : ℝ) * chi) ^ rc.order)
        * ((b + (pc.order : ℝ) * chi + (a - (rc.order : ℝ) * chi))
            ^ (-((pc.order : ℤ) - (rc.order : ℤ))))
        * pressure ^ ((pc.order : ℤ) - (rc.order : ℤ)) := by
  unfold Reaction.reaction_equation
  rw [hre, hpe]
  simp only [List.zip_cons_cons, List.zip_nil_left, List.zip_nil_right,
    List.foldl_cons, List.foldl_nil, one_mul, zero_add]

/-- Claim C5: for a reaction with exactly one reactant (order > 0) and exactly
one product (order > 0), positive pressure, and non-negative initial moles,
`chi -> reaction_equation(chi, pressure, [a], [b])` is strictly increasing on
the open set where both current-moles terms are strictly positive. -/
theorem reaction_equation_strict_mono (rc pc : Component) (r : Reaction)
    (hre : r.reactants = [rc]) (hpe : r.products = [pc])
    (hm : 0 < rc.order) (hn : 0 < pc.order)
    (a b pressure : ℝ) (_ha : 0 ≤ a) (_hb : 0 ≤ b) (hp : 0 < pressure) :
    StrictMonoOn (fun chi => r.reaction_equation chi pressure [a] [b])
      {chi : ℝ | 0 < b + (pc.order : ℝ) * chi ∧ 0 < a - (rc.order : ℝ) * chi} := by
  have hn' : (0 : ℝ) < (pc.order : ℝ) := by exact_mod_cast hn
  have hm' : (0 : ℝ) < (rc.order : ℝ) := by exact_mod_cast hm
  have hSIoo : {chi : ℝ | 0 < b + (pc.order : ℝ) * chi ∧ 0 < a - (rc.order : ℝ) * chi}
      = Set.Ioo (-b / (pc.order : ℝ)) (a / (rc.order : ℝ)) := by
    ext χ
    simp only [Set.mem_setOf_eq, Set.mem_Ioo]
    constructor
    · rintro ⟨h1, h2⟩
      exact ⟨(div_lt_iff₀ hn').mpr (by nlinarith), (lt_div_iff₀ hm').mpr (by nlinarith)⟩
    · rintro ⟨h1, h2⟩
      have h1' := (div_lt_iff₀ hn').mp h1
      have h2' := (lt_div_iff₀ hm').mp h2
      constructor <;> nlinarith
  have hmem : ∀ χ ∈ Set.Ioo (-b / (pc.order : ℝ)) (a / (rc.order : ℝ)),
      0 < b + (pc.order : ℝ) * χ ∧ 0 < a - (rc.order : ℝ) * χ := by
    intro χ hχ
    have : χ ∈ {chi : ℝ | 0 < b + (pc.order : ℝ) * chi
        ∧ 0 < a - (rc.order : ℝ) * chi} := by
      rw [hSIoo]; exact hχ
    exact this
  have hA : ∀ χ ∈ Set.Ioo (-b / (pc.order : ℝ)) (a / (rc.order : ℝ)),
      r.reaction_equation χ pressure [a] [b]
        = Real.exp ((pc.order : ℝ) * Real.log (b + (pc.order : ℝ) * χ)
            - (rc.order : ℝ) * Real.log (a - (rc.order : ℝ) * χ)
            - ((pc.order : ℝ) - (rc.order : ℝ))
              * Real.log (b + (pc.order : ℝ) * χ + (a - (rc.order : ℝ) * χ))
            + ((pc.order : ℝ) - (rc.order : ℝ)) * Real.log pressure) := by
    intro χ hχ
    obtain ⟨hu, hv⟩ := hmem χ hχ
    have hw : 0 < b + (pc.order : ℝ) * χ + (a - (rc.order : ℝ) * χ) := by linarith
    have hnum : 0 < (b + (pc.order : ℝ) * χ) ^ pc.order := pow_pos hu _
    have hden : 0 < (a - (rc.order : ℝ) * χ) ^ rc.order := pow_pos hv _
    have htot : 0 < (b + (pc.order : ℝ) * χ + (a - (rc.order : ℝ) * χ))
        ^ (-((pc.order : ℤ) - (rc.order : ℤ))) := zpow_pos hw _
    have hpp : 0 < pressure ^ ((pc.order : ℤ) - (rc.order : ℤ)) := zpow_pos hp _
    have hQpos : 0 < ((b + (pc.order : ℝ) * χ) ^ pc.order
          / (a - (rc.order : ℝ) * χ) ^ rc.order)
        * ((b + (pc.order : ℝ) * χ + (a - (rc.order : ℝ) * χ))
            ^ (-((pc.order : ℤ) - (rc.order : ℤ))))
        * pressure ^ ((pc.order : ℤ) - (rc.order : ℤ)) :=
      mul_pos (mul_pos (div_pos hnum hden) htot) hpp
    rw [reaction_equation_single rc pc r hre hpe, ← Real.exp_log hQpos]
    congr 1
    rw [Real.log_mul (ne_of_gt (mul_pos (div_pos hnum hden) htot)) (ne_of_gt hpp),
      Real.log_mul (ne_of_gt (div_pos hnum hden)) (ne_of_gt htot),
      Real.log_div (ne_of_gt hnum) (ne_of_gt hden),
      Real.log_pow, Real.log_pow, Real.log_zpow, Real.log_zpow]
    push_cast
    ring
  have hd : ∀ χ ∈ Set.Ioo (-b / (pc.order : ℝ)) (a / (rc.order : ℝ)),
      HasDerivAt (fun χ : ℝ => (pc.order : ℝ) * Real.log (b + (pc.order : ℝ) * χ)
          - (rc.order : ℝ) * Real.log (a - (rc.order : ℝ) * χ)
          - ((pc.order : ℝ) - (rc.order : ℝ))
            * Real.log (b + (pc.order : ℝ) * χ + (a - (rc.order : ℝ) * χ))
          + ((pc.order : ℝ) - (rc.order : ℝ)) * Real.log pressure)
        ((pc.order : ℝ) ^ 2 / (b + (pc.order : ℝ) * χ)
          + (rc.order : ℝ) ^ 2 / (a - (rc.order : ℝ) * χ)
          - ((pc.order : ℝ) - (rc.order : ℝ)) ^ 2
            / (b + (pc.order : ℝ) * χ + (a - (rc.order : ℝ) * χ))) χ := by
    intro χ hχ
    obtain ⟨hu, hv⟩ := hmem χ hχ
    have hw : 0 < b + (pc.order : ℝ) * χ + (a - (rc.order : ℝ) * χ) := by linarith
    have h1 : HasDerivAt (fun χ : ℝ => b + (pc.order : ℝ) * χ) (pc.order : ℝ) χ := by
      simpa using ((hasDerivAt_id χ).const_mul (pc.order : ℝ)).const_add b
    have h2 : HasDerivAt (fun χ : ℝ => a - (rc.order : ℝ) * χ) (-(rc.order : ℝ)) χ := by
      simpa using (hasDerivAt_const χ a).sub ((hasDerivAt_id χ).const_mul (rc.order : ℝ))
    have h3 : HasDerivAt
        (fun χ : ℝ => b + (pc.order : ℝ) * χ + (a - (rc.order : ℝ) * χ))
        ((pc.order : ℝ) + -(rc.order : ℝ)) χ := h1.add h2
    have hlog1 := (h1.log (ne_of_gt hu)).const_mul (pc.order : ℝ)
    have hlog2 := (h2.log (ne_of_gt hv)).const_mul (rc.order : ℝ)
    have hlog3 := (h3.log (ne_of_gt hw)).const_mul ((pc.order : ℝ) - (rc.order : ℝ))
    have H := ((hlog1.sub hlog2).sub hlog3).add_const
      (((pc.order : ℝ) - (rc.order : ℝ)) * Real.log pressure)
    convert H using 1
    field_simp
    ring
  have hB : StrictMonoOn (fun χ : ℝ => (pc.order : ℝ) * Real.log (b + (pc.order : ℝ) * χ)
      - (rc.order : ℝ) * Real.log (a - (rc.order : ℝ) * χ)
      - ((pc.order : ℝ) - (rc.order : ℝ))
        * Real.log (b + (pc.order : ℝ) * χ + (a - (rc.order : ℝ) * χ))
      + ((pc.order : ℝ) - (rc.order : ℝ)) * Real.log pressure)
      (Set.Ioo (-b / (pc.order : ℝ)) (a / (rc.order : ℝ))) := by
    apply strictMonoOn_of_deriv_pos (convex_Ioo _ _)
    · exact fun χ hχ => (hd χ hχ).continuousAt.continuousWithinAt
    · intro χ hχ
      rw [interior_Ioo] at hχ
      rw [(hd χ hχ).deriv]
      obtain ⟨hu, hv⟩ := hmem χ hχ
      have hw : 0 < b + (pc.order : ℝ) * χ + (a - (rc.order : ℝ) * χ) := by linarith
      have hu0 : b + (pc.order : ℝ) * χ ≠ 0 := ne_of_gt hu
      have hv0 : a - (rc.order : ℝ) * χ ≠ 0 := ne_of_gt hv
      have hw0 : b + (pc.order : ℝ) * χ + (a - (rc.order : ℝ) * χ) ≠ 0 := ne_of_gt hw
      have hkey : (pc.order : ℝ) ^ 2 / (b + (pc.order : ℝ) * χ)
          + (rc.order : ℝ) ^ 2 / (a - (rc.order : ℝ) * χ)
          - ((pc.order : ℝ) - (rc.order : ℝ)) ^ 2
            / (b + (pc.order : ℝ) * χ + (a - (rc.order : ℝ) * χ))
          = ((pc.order : ℝ) * (a - (rc.order : ℝ) * χ)
              + (rc.order : ℝ) * (b + (pc.order : ℝ) * χ)) ^ 2
            / ((b + (pc.order : ℝ) * χ) * (a - (rc.order : ℝ) * χ)
              * (b + (pc.order : ℝ) * χ + (a - (rc.order : ℝ) * χ))) := by
        field_simp
        ring
      rw [hkey]
      apply div_pos
      · apply pow_pos
        exact add_pos (mul_pos hn' hv) (mul_pos hm' hu)
      · exact mul_pos (mul_pos hu hv) hw
  rw [hSIoo]
  intro χ1 h1 χ2 h2 hlt
  show r.reaction_equation χ1 pressure [a] [b] < r.reaction_equation χ2 pressure [a] [b]
  rw [hA χ1 h1, hA χ2 h2]
  exact Real.exp_lt_exp.mpr (hB h1 h2 hlt)

/-- Witness for C5: the quotient of the concrete reaction A ⇌ B (orders 1, 1)
with unit pressure and unit initial moles is strictly increasing on its
admissible set. -/
theorem reaction_equation_strict_mono_witness :
    StrictMonoOn
      (fun chi => Reaction.reaction_equation
        ⟨[⟨"A", 1, 0, 0, 0, 0, 0⟩], [⟨"B", 1, 0, 0, 0, 0, 0⟩], 0, 0, "ideal", 500⟩
        chi 1 [1] [1])
      {chi : ℝ | 0 < 1 + ((Component.mk "B" 1 0 0 0 0 0).order : ℝ) * chi
        ∧ 0 < 1 - ((Component.mk "A" 1 0 0 0 0 0).order : ℝ) * chi} :=
  reaction_equation_strict_mono ⟨"A", 1, 0, 0, 0, 0, 0⟩ ⟨"B", 1, 0, 0, 0, 0, 0⟩
    ⟨[⟨"A", 1, 0, 0, 0, 0, 0⟩], [⟨"B", 1, 0, 0, 0, 0, 0⟩], 0, 0, "ideal", 500⟩
    rfl rfl (by norm_num) (by norm_num) 1 1 1 (by norm_num) (by norm_num) (by norm_num)

end

end PyReactor
